import Mathlib

/-!
Shallow embedding of the delayed-queue engine of LoansBot/shared
(`src/lbshared/delayed_queue.py`) and of the signal-delay helper
(`src/lbshared/signal_helper.py`).

The relational event index (postgres) is modelled as a list of rows plus a
separately tracked committed snapshot; the ArangoDB payload store is modelled
per the PayloadStore collaborator contract as an optional collection (absent
until provisioned) holding key/value documents, with a fault oracle standing
in for network failures of document writes.  Python values that may be
`None` are modelled as `Option Nat`; a Python function that raises is
modelled with `Except`.  Every operation threads the full state, and an
action trace records the observable effects in order.
-/

namespace LBShared

/-- Event identifiers (Python uuid4 values); freshness is modelled with a
counter in the state. -/
abbrev Uuid := Nat

/-- Event timestamps (`event_at`). -/
abbrev Time := Int

/-- An arbitrary Python value: `none` models Python `None`. -/
abbrev PyVal := Option Nat

/-- The mutable context dict handed to handler and rollback. -/
abbrev Ctx := List (Nat × Nat)

/-- Python exceptions relevant to the embedded code: an HTTP error from the
payload store (the only kind `store_event` catches), any other error kind,
the `Exception` raised for a bad integrity-failure technique (carrying the
offending policy string), and an arbitrary exception raised by a handler or
rollback function, identified by a numeric code. -/
inductive PyErr where
  | httpError : PyErr
  | otherError : PyErr
  | badIntegrity : String → PyErr
  | exc : Nat → PyErr
  deriving DecidableEq

/-- Observable effects, recorded in order in the state trace. -/
inductive Action where
  | writeDoc : Uuid → Bool → Action
  | createColl : Nat → Action
  | forceDeleteDoc : Uuid → Action
  | insertRow : Uuid → Action
  | deleteRows : Uuid → Action
  | commitTx : Action
  | logExc : Uuid → Action
  | handlerCall : Uuid → Ctx → Action
  | rollbackCall : Uuid → Ctx → Action
  deriving DecidableEq

/-- One row of the relational `delayed_queue` table:
`(id, uuid, queue_type, event_at)`. -/
structure IndexRow where
  rowId : Nat
  uuid : Uuid
  queueType : Int
  eventAt : Time
  deriving DecidableEq

/-- The ArangoDB `delayed_queue` collection: its TTL (seconds) and its
documents, keyed by event uuid. -/
structure Coll where
  ttl : Nat
  docs : List (Uuid × PyVal)
  deriving DecidableEq

/-- The full state threaded through every operation.  `rows` is the current
(transactional) view of the index table, `committedRows` the durable snapshot
as of the last commit.  `kvs` is the payload collection, `none` while not yet
provisioned.  `faults` is an oracle giving the outcome of the n-th document
write: `none` for no network fault, `some e` for a write that raises `e`. -/
structure State where
  rows : List IndexRow
  committedRows : List IndexRow
  kvs : Option Coll
  nextUuid : Nat
  nextRowId : Nat
  kvsCalls : Nat
  faults : Nat → Option PyErr
  trace : List Action

/-- Insert-or-replace of a document, keeping the position of an existing
key (`create_or_overwrite_doc` semantics on the document list). -/
def upsert (u : Uuid) (p : PyVal) : List (Uuid × PyVal) → List (Uuid × PyVal)
  | [] => [(u, p)]
  | (k, v) :: rest => if k = u then (u, p) :: rest else (k, v) :: upsert u p rest

/-- Association-list lookup of a document body by key. -/
def lookupDoc (docs : List (Uuid × PyVal)) (u : Uuid) : Option PyVal :=
  match docs with
  | [] => none
  | (k, v) :: rest => if k = u then some v else lookupDoc rest u

/-- PayloadStore `createOrOverwrite(key, value)`: consumes one slot of the
fault oracle; with no fault it raises an HTTP error exactly when the
collection has not been provisioned, and otherwise stores the document. -/
def kvsWriteDoc (s : State) (u : Uuid) (p : PyVal) : Except PyErr Unit × State :=
  let n := s.kvsCalls
  let s1 : State := { s with kvsCalls := n + 1 }
  match s1.faults n with
  | some e => (Except.error e, { s1 with trace := s1.trace ++ [Action.writeDoc u false] })
  | none =>
    match s1.kvs with
    | none =>
      (Except.error PyErr.httpError, { s1 with trace := s1.trace ++ [Action.writeDoc u false] })
    | some c =>
      (Except.ok (),
        { s1 with kvs := some ⟨c.ttl, upsert u p c.docs⟩,
                  trace := s1.trace ++ [Action.writeDoc u true] })

/-- PayloadStore `createCollectionIfMissing(ttlSeconds)`: provisions the
collection with the given TTL when absent, and is a no-op otherwise. -/
def kvsCreateIfNotExists (s : State) (ttl : Nat) : State :=
  match s.kvs with
  | none => { s with kvs := some ⟨ttl, []⟩, trace := s.trace ++ [Action.createColl ttl] }
  | some _ => s

/-- PayloadStore `read(key)`: the Python client returns the document body or
`None` when it is absent, so a stored `None` body and a missing document are
indistinguishable to the caller — both give `none` here. -/
def kvsReadDoc (s : State) (u : Uuid) : PyVal :=
  match s.kvs with
  | none => none
  | some c =>
    match lookupDoc c.docs u with
    | none => none
    | some v => v

/-- PayloadStore `forceDelete(key)`: removes the document when present,
succeeding silently otherwise. -/
def kvsForceDeleteDoc (s : State) (u : Uuid) : State :=
  match s.kvs with
  | none => { s with trace := s.trace ++ [Action.forceDeleteDoc u] }
  | some c =>
    { s with kvs := some ⟨c.ttl, c.docs.filter (fun kv => kv.1 != u)⟩,
             trace := s.trace ++ [Action.forceDeleteDoc u] }

/-- `INSERT INTO delayed_queue (uuid, queue_type, event_at) VALUES (...)`. -/
def dbInsertRow (s : State) (u : Uuid) (qt : Int) (t : Time) : State :=
  { s with rows := s.rows ++ [⟨s.nextRowId, u, qt, t⟩],
           nextRowId := s.nextRowId + 1,
           trace := s.trace ++ [Action.insertRow u] }

/-- `DELETE FROM delayed_queue WHERE uuid = ?`. -/
def dbDeleteRows (s : State) (u : Uuid) : State :=
  { s with rows := s.rows.filter (fun r => r.uuid != u),
           trace := s.trace ++ [Action.deleteRows u] }

/-- `write_conn.commit()`: the current view becomes the durable snapshot. -/
def dbCommit (s : State) : State :=
  { s with committedRows := s.rows, trace := s.trace ++ [Action.commitTx] }

/-- Second half of `store_event` after the payload write has succeeded: the
index insert, the optional commit, and the fall-off-the-end return of Python
`None` (the source has no return statement). -/
def storeEventTail (s : State) (event_uuid : Uuid) (queue_type : Int) (event_at : Time)
    (commit : Bool) : Except PyErr (Option Uuid) × State :=
  let s1 := dbInsertRow s event_uuid queue_type event_at
  let s2 := if commit then dbCommit s1 else s1
  (Except.ok none, s2)

/-- Embedding of `store_event` (delayed_queue.py, lines 19-75).  Generates a
fresh uuid, writes the payload document; on an HTTP error it provisions the
collection with TTL 31622400 seconds and retries the write once, letting any
further or non-HTTP failure propagate; then inserts the index row and
optionally commits.  The Python body ends without a `return`, so the value of
a successful call is Python `None`, modelled as `Except.ok none`. -/
def store_event (s : State) (queue_type : Int) (event_at : Time) (event : PyVal)
    (commit : Bool) : Except PyErr (Option Uuid) × State :=
  let event_uuid := s.nextUuid
  let s0 : State := { s with nextUuid := s.nextUuid + 1 }
  match kvsWriteDoc s0 event_uuid event with
  | (Except.ok _, s1) => storeEventTail s1 event_uuid queue_type event_at commit
  | (Except.error PyErr.httpError, s1) =>
    let s2 := kvsCreateIfNotExists s1 31622400
    (match kvsWriteDoc s2 event_uuid event with
     | (Except.ok _, s3) => storeEventTail s3 event_uuid queue_type event_at commit
     | (Except.error e, s3) => (Except.error e, s3))
  | (Except.error e, s1) => (Except.error e, s1)

/-- The two result orders the `order` argument of `index_events` may select
(any other string would fail the `getattr(Order, order)` lookup and is not a
call this development considers). -/
inductive SqlOrder where
  | asc : SqlOrder
  | desc : SqlOrder
  deriving DecidableEq

/-- The comparator the `ORDER BY event_at {ASC|DESC}` clause sorts by. -/
def rowLe (o : SqlOrder) (r1 r2 : IndexRow) : Bool :=
  match o with
  | SqlOrder.asc => r1.eventAt ≤ r2.eventAt
  | SqlOrder.desc => r2.eventAt ≤ r1.eventAt

/-- The comparator of `rowLe` as a decidable relation, for sorting. -/
def rowRel (o : SqlOrder) : IndexRow → IndexRow → Prop :=
  fun r1 r2 => rowLe o r1 r2 = true

instance (o : SqlOrder) : DecidableRel (rowRel o) :=
  fun r1 r2 => inferInstanceAs (Decidable (rowLe o r1 r2 = true))

instance (o : SqlOrder) : IsTotal IndexRow (rowRel o) where
  total := by
    intro a b
    cases o
    case asc =>
      dsimp only [rowRel, rowLe]
      rcases Int.le_total a.eventAt b.eventAt with h | h
      · exact Or.inl (decide_eq_true h)
      · exact Or.inr (decide_eq_true h)
    case desc =>
      dsimp only [rowRel, rowLe]
      rcases Int.le_total b.eventAt a.eventAt with h | h
      · exact Or.inl (decide_eq_true h)
      · exact Or.inr (decide_eq_true h)

instance (o : SqlOrder) : IsTrans IndexRow (rowRel o) where
  trans := by
    intro a b c h1 h2
    cases o
    case asc =>
      dsimp only [rowRel, rowLe] at h1 h2 ⊢
      exact decide_eq_true (le_trans (of_decide_eq_true h1) (of_decide_eq_true h2))
    case desc =>
      dsimp only [rowRel, rowLe] at h1 h2 ⊢
      exact decide_eq_true (le_trans (of_decide_eq_true h2) (of_decide_eq_true h1))

/-- The `WHERE` clause of the `index_events` select: queue type equality plus
the optional `event_at < before_time` and `event_at > after_time` bounds. -/
def rowMatches (qt : Int) (before_time after_time : Option Time) (r : IndexRow) : Bool :=
  r.queueType == qt
    && (match before_time with
        | none => true
        | some b => decide (r.eventAt < b))
    && (match after_time with
        | none => true
        | some a => decide (a < r.eventAt))

/-- The select of `index_events`:
`SELECT uuid, event_at FROM delayed_queue WHERE ... ORDER BY event_at ... LIMIT limit`. -/
def selectRows (rows : List IndexRow) (qt : Int) (before_time after_time : Option Time)
    (o : SqlOrder) (limit : Nat) : List (Uuid × Time) :=
  ((List.insertionSort (rowRel o) (rows.filter (rowMatches qt before_time after_time))).take
    limit).map (fun r => (r.uuid, r.eventAt))

/-- The `include` integrity-failure policy string. -/
def polInclude : String := "include"

/-- The `delete_and_commit` integrity-failure policy string. -/
def polDeleteAndCommit : String := "delete_and_commit"

/-- The per-row loop of `index_events` (delayed_queue.py, lines 160-185):
reads each selected row's payload document, appends present payloads to the
result, and handles an absent payload per the policy — `include` appends the
entry with a `None` payload, `delete_and_commit` deletes the index row and
remembers that a commit is required, anything else raises.  After the loop a
commit is performed when required. -/
def indexLoop (s : State) (pend : List (Uuid × Time)) (pol : String)
    (acc : List (Uuid × Time × PyVal)) (commitRequired : Bool) :
    Except PyErr (List (Uuid × Time × PyVal)) × State :=
  match pend with
  | [] => (Except.ok acc, if commitRequired then dbCommit s else s)
  | (u, t) :: rest =>
    match kvsReadDoc s u with
    | some ev => indexLoop s rest pol (acc ++ [(u, t, some ev)]) commitRequired
    | none =>
      if pol = polInclude then
        indexLoop s rest pol (acc ++ [(u, t, none)]) commitRequired
      else if pol = polDeleteAndCommit then
        indexLoop (dbDeleteRows s u) rest pol acc true
      else
        (Except.error (PyErr.badIntegrity pol), s)

/-- Embedding of `index_events` (delayed_queue.py, lines 78-185): select up
to `limit` matching rows ordered by event time, then run the payload-join
loop under the given integrity-failure policy. -/
def index_events (s : State) (queue_type : Int) (limit : Nat)
    (before_time after_time : Option Time) (o : SqlOrder)
    (integrity_failures : String) :
    Except PyErr (List (Uuid × Time × PyVal)) × State :=
  indexLoop s (selectRows s.rows queue_type before_time after_time o limit)
    integrity_failures [] false

/-- Embedding of `delete_event` (delayed_queue.py, lines 188-230):
`DELETE ... WHERE uuid = ? RETURNING id` (success iff some row existed),
optional commit, then an unconditional force-delete of the payload document. -/
def delete_event (s : State) (event_uuid : Uuid) (commit : Bool) : Bool × State :=
  let success := s.rows.any (fun r => r.uuid == event_uuid)
  let s1 := dbDeleteRows s event_uuid
  let s2 := if commit then dbCommit s1 else s1
  let s3 := kvsForceDeleteDoc s2 event_uuid
  (success, s3)

/-- A handler or rollback function: receives the event uuid, event time,
payload and context dict, and either returns normally or raises an exception
identified by a numeric code; either way it leaves the context dict in some
final state. -/
abbrev EventHandler := Uuid → Time → PyVal → Ctx → Except Nat Unit × Ctx

/-- The per-event loop of `consume_events` (delayed_queue.py, lines 285-302).
Each selected event is claimed via `delete_event(..., commit=True)`; a failed
claim skips the event.  On a successful claim (inside the `delay_signals`
critical section, which has no effect on this state) a fresh empty context is
made and the handler invoked; if it raises, the failure is logged, the
rollback function is invoked with the context as the handler left it, and —
when the rollback returns normally — the event is re-stored with
`store_event(queue_type, ev_at, ev, commit=True)` before the original
exception is re-raised.  A rollback exception propagates instead, without a
re-store. -/
def consumeLoop (s : State) (queue_type : Int) (events : List (Uuid × Time × PyVal))
    (handler rollback : EventHandler) : Except PyErr Unit × State :=
  match events with
  | [] => (Except.ok (), s)
  | (ev_uuid, ev_at, ev) :: rest =>
    match delete_event s ev_uuid true with
    | (false, s1) => consumeLoop s1 queue_type rest handler rollback
    | (true, s1) =>
      let context : Ctx := []
      let s2 : State := { s1 with trace := s1.trace ++ [Action.handlerCall ev_uuid context] }
      match handler ev_uuid ev_at ev context with
      | (Except.ok _, _) => consumeLoop s2 queue_type rest handler rollback
      | (Except.error e, ctx) =>
        let s3 : State :=
          { s2 with trace := s2.trace ++ [Action.logExc ev_uuid, Action.rollbackCall ev_uuid ctx] }
        match rollback ev_uuid ev_at ev ctx with
        | (Except.error re, _) => (Except.error (PyErr.exc re), s3)
        | (Except.ok _, _) =>
          match store_event s3 queue_type ev_at ev true with
          | (Except.error se, s4) => (Except.error se, s4)
          | (Except.ok _, s4) => (Except.error (PyErr.exc e), s4)

/-- Embedding of `consume_events` (delayed_queue.py, lines 233-302): select
the past-due events (`before_time = now`, ascending order, integrity failures
handled as `delete_and_commit`) and run the consumption loop over them. -/
def consume_events (s : State) (queue_type : Int) (limit : Nat) (now : Time)
    (handler rollback : EventHandler) : Except PyErr Unit × State :=
  match index_events s queue_type limit (some now) none SqlOrder.asc polDeleteAndCommit with
  | (Except.error e, s1) => (Except.error e, s1)
  | (Except.ok past_due, s1) => consumeLoop s1 queue_type past_due handler rollback

/-- The two signals `delay_signals` (signal_helper.py) installs capture
handlers for. -/
inductive Sig where
  | sigint : Sig
  | sigterm : Sig
  deriving DecidableEq

/-- The pair of nonlocal flags of `_get_delayed_handlers`. -/
structure SigFlags where
  capturedSigint : Bool
  capturedSigterm : Bool
  deriving DecidableEq

/-- Effect of one signal delivered while the capture handlers are installed:
the corresponding flag is set, nothing is delivered to the program. -/
def captureSig (f : SigFlags) (sg : Sig) : SigFlags :=
  match sg with
  | Sig.sigint => { f with capturedSigint := true }
  | Sig.sigterm => { f with capturedSigterm := true }

/-- Flags after every signal of the critical section has been captured,
starting from the freshly initialized flags. -/
def captureAll (sigs : List Sig) : SigFlags :=
  sigs.foldl captureSig ⟨false, false⟩

/-- The `callback` run after the old handlers are restored: re-raises SIGTERM
when captured, else SIGINT when captured, else nothing. -/
def delayCallback (f : SigFlags) : Option Sig :=
  if f.capturedSigterm then some Sig.sigterm
  else if f.capturedSigint then some Sig.sigint
  else none

/-- The signal redelivered after a `delay_signals` critical section during
which `sigs` arrived (signal_helper.py, lines 17-66). -/
def delay_signals_redelivered (sigs : List Sig) : Option Sig :=
  delayCallback (captureAll sigs)

/-- A fault oracle under which no document write suffers a network fault. -/
def noFaults : Nat → Option PyErr := fun _ => none

/-- A fault oracle whose first document write raises a non-HTTP error. -/
def faultOtherFirst : Nat → Option PyErr :=
  fun n => if n = 0 then some PyErr.otherError else none

/-- A fault oracle whose second document write raises a non-HTTP error. -/
def faultOtherSecond : Nat → Option PyErr :=
  fun n => if n = 1 then some PyErr.otherError else none

/-- A starting state with the given index rows (already committed), payload
collection and fault oracle. -/
def mkState (rows : List IndexRow) (c : Option Coll) (f : Nat → Option PyErr) : State :=
  { rows := rows, committedRows := rows, kvs := c, nextUuid := 100, nextRowId := 10,
    kvsCalls := 0, faults := f, trace := [] }

/-- A handler or rollback that returns normally and leaves the context as
it found it. -/
def hNop : EventHandler := fun _ _ _ c => (Except.ok (), c)

/-- A handler that records one entry in the context dict and then raises the
exception with code 7. -/
def hFail : EventHandler := fun _ _ _ c => (Except.error 7, (1, 2) :: c)

/-- A policy string that is neither `include` nor `delete_and_commit`. -/
def polBogus : String := "bogus"

/-- The time ordering the `order` argument selects on the returned
`event_at` values: non-decreasing for `asc`, non-increasing for `desc`. -/
def timeRel (o : SqlOrder) : Time → Time → Prop :=
  fun x y =>
    match o with
    | SqlOrder.asc => x ≤ y
    | SqlOrder.desc => y ≤ x

/-- Concrete state with two due events of which uuid 7 has lost its payload
document while uuid 8 still has one. -/
def stTwoRowsOneDoc : State :=
  mkState [⟨1, 7, 0, 5⟩, ⟨2, 8, 0, 3⟩] (some ⟨9, [(8, some 11)]⟩) noFaults

/-- Concrete state with one due event (uuid 7) whose payload document is
missing. -/
def stOneRowNoDoc : State := mkState [⟨1, 7, 0, 5⟩] (some ⟨9, []⟩) noFaults

/-- Concrete state with one due event (uuid 0) whose payload document is
present. -/
def stOneRowOneDoc : State := mkState [⟨1, 0, 0, 5⟩] (some ⟨9, [(0, some 42)]⟩) noFaults

/-- Concrete state whose payload collection has not been provisioned. -/
def stNoColl : State := mkState [] none noFaults

/-- Concrete state without a payload collection whose second document write
(the retry) suffers a non-HTTP fault. -/
def stNoCollRetryFault : State := mkState [] none faultOtherSecond

/-- Concrete state with a provisioned collection whose first document write
suffers a non-HTTP fault. -/
def stFaultFirst : State := mkState [] (some ⟨9, []⟩) faultOtherFirst

/-- Looking up a key immediately after upserting it yields the new body. -/
theorem lookupDoc_upsert (u : Uuid) (p : PyVal) :
    ∀ docs, lookupDoc (upsert u p docs) u = some p := by
  intro docs
  induction docs with
  | nil => simp [upsert, lookupDoc]
  | cons kv rest ih =>
    obtain ⟨k, v⟩ := kv
    by_cases h : k = u
    · simp [upsert, h, lookupDoc]
    · simp [upsert, h, lookupDoc, ih]

/-- Force-deleting a payload document leaves the index rows untouched. -/
theorem kvsForceDeleteDoc_rows (s : State) (u : Uuid) :
    (kvsForceDeleteDoc s u).rows = s.rows := by
  cases hk : s.kvs <;> simp [kvsForceDeleteDoc, hk]

/-- Force-deleting a payload document leaves the committed snapshot
untouched. -/
theorem kvsForceDeleteDoc_committedRows (s : State) (u : Uuid) :
    (kvsForceDeleteDoc s u).committedRows = s.committedRows := by
  cases hk : s.kvs <;> simp [kvsForceDeleteDoc, hk]

/-- Force-deleting a payload document appends exactly its action to the
trace. -/
theorem kvsForceDeleteDoc_trace (s : State) (u : Uuid) :
    (kvsForceDeleteDoc s u).trace = s.trace ++ [Action.forceDeleteDoc u] := by
  cases hk : s.kvs <;> simp [kvsForceDeleteDoc, hk]

/-- Force-deleting on a present collection filters out the key. -/
theorem kvsForceDeleteDoc_kvs_some (s : State) (u : Uuid) (c : Coll) (h : s.kvs = some c) :
    (kvsForceDeleteDoc s u).kvs = some ⟨c.ttl, c.docs.filter (fun kv => kv.1 != u)⟩ := by
  simp [kvsForceDeleteDoc, h]

/-- The include-policy loop of `index_events` returns every pending row,
decorated with its (possibly absent) payload, and does not change the
state at all. -/
theorem indexLoop_include_eq (s : State) :
    ∀ (pend : List (Uuid × Time)) (acc : List (Uuid × Time × PyVal)),
      indexLoop s pend polInclude acc false =
        (Except.ok (acc ++ pend.map fun p => (p.1, p.2, kvsReadDoc s p.1)), s) := by
  intro pend
  induction pend with
  | nil => intro acc; simp [indexLoop]
  | cons hd rest ih =>
    intro acc
    obtain ⟨u, t⟩ := hd
    rcases h : kvsReadDoc s u with _ | v
    · simp only [indexLoop, h]
      rw [if_pos trivial, ih]
      simp [h]
    · simp only [indexLoop, h]
      rw [ih]
      simp [h]

/-- After folding the capture handlers over the arrived signals, the SIGTERM
flag is set exactly when a SIGTERM arrived (or it was set before). -/
theorem foldl_captureSig_sigterm :
    ∀ (sigs : List Sig) (f : SigFlags),
      (sigs.foldl captureSig f).capturedSigterm
        = (f.capturedSigterm || decide (Sig.sigterm ∈ sigs)) := by
  intro sigs
  induction sigs with
  | nil => intro f; simp
  | cons hd rest ih =>
    intro f
    cases hd <;> simp [List.foldl_cons, captureSig, ih, List.mem_cons, Bool.or_assoc]

/-- After folding the capture handlers over the arrived signals, the SIGINT
flag is set exactly when a SIGINT arrived (or it was set before). -/
theorem foldl_captureSig_sigint :
    ∀ (sigs : List Sig) (f : SigFlags),
      (sigs.foldl captureSig f).capturedSigint
        = (f.capturedSigint || decide (Sig.sigint ∈ sigs)) := by
  intro sigs
  induction sigs with
  | nil => intro f; simp
  | cons hd rest ih =>
    intro f
    cases hd <;> simp [List.foldl_cons, captureSig, ih, List.mem_cons, Bool.or_assoc]

/-- Reading a payload document is insensitive to index-row deletion. -/
theorem kvsReadDoc_dbDeleteRows (s : State) (u x : Uuid) :
    kvsReadDoc (dbDeleteRows s u) x = kvsReadDoc s x := rfl

/-- The two recognized integrity-failure policy strings differ. -/
theorem dac_ne_polInclude : polDeleteAndCommit ≠ polInclude := by decide

/-- The delete-and-commit loop always returns normally, and every result
entry beyond the accumulator comes from a pending row whose payload document
was present — so its payload is the stored one and never absent. -/
theorem indexLoop_dac_entries :
    ∀ (pend : List (Uuid × Time)) (s : State) (acc : List (Uuid × Time × PyVal)) (cr : Bool),
      ∃ res, (indexLoop s pend polDeleteAndCommit acc cr).fst = Except.ok res ∧
        ∀ e ∈ res, e ∈ acc ∨
          ((e.1, e.2.1) ∈ pend ∧ e.2.2 = kvsReadDoc s e.1 ∧ e.2.2 ≠ none) := by
  intro pend
  induction pend with
  | nil =>
    intro s acc cr
    refine ⟨acc, by cases cr <;> simp [indexLoop], ?_⟩
    intro e he
    exact Or.inl he
  | cons hd rest ih =>
    intro s acc cr
    obtain ⟨u, t⟩ := hd
    rcases h : kvsReadDoc s u with _ | v
    · simp only [indexLoop, h, if_neg dac_ne_polInclude, if_pos rfl]
      obtain ⟨res, hfst, hmem⟩ := ih (dbDeleteRows s u) acc true
      refine ⟨res, hfst, ?_⟩
      intro e he
      rcases hmem e he with hacc | ⟨hp, hread, hne⟩
      · exact Or.inl hacc
      · exact Or.inr ⟨List.mem_cons_of_mem _ hp,
          by rw [hread]; exact kvsReadDoc_dbDeleteRows s u e.1, hne⟩
    · simp only [indexLoop, h]
      obtain ⟨res, hfst, hmem⟩ := ih s (acc ++ [(u, t, some v)]) cr
      refine ⟨res, hfst, ?_⟩
      intro e he
      rcases hmem e he with hacc | ⟨hp, hread, hne⟩
      · rcases List.mem_append.mp hacc with h1 | h1
        · exact Or.inl h1
        · rcases List.mem_singleton.mp h1 with rfl
          exact Or.inr ⟨List.mem_cons_self _ _, h.symm, by simp⟩
      · exact Or.inr ⟨List.mem_cons_of_mem _ hp, hread, hne⟩

/-- The delete-and-commit loop never reintroduces an absent uuid into the
index view. -/
theorem indexLoop_rows_absent (u : Uuid) :
    ∀ (pend : List (Uuid × Time)) (s : State) (acc : List (Uuid × Time × PyVal)) (cr : Bool),
      (∀ r ∈ s.rows, r.uuid ≠ u) →
      ∀ r ∈ ((indexLoop s pend polDeleteAndCommit acc cr).snd).rows, r.uuid ≠ u := by
  intro pend
  induction pend with
  | nil =>
    intro s acc cr habs
    cases cr <;> simpa [indexLoop, dbCommit] using habs
  | cons hd rest ih =>
    intro s acc cr habs
    obtain ⟨u0, t0⟩ := hd
    rcases h : kvsReadDoc s u0 with _ | v
    · simp only [indexLoop, h, if_neg dac_ne_polInclude, if_pos rfl]
      refine ih (dbDeleteRows s u0) acc true ?_
      intro r hr
      exact habs r (List.mem_filter.mp hr).1
    · simp only [indexLoop, h]
      exact ih s (acc ++ [(u0, t0, some v)]) cr habs

/-- Every pending row whose payload document is missing has all rows with
its uuid removed from the index view by the delete-and-commit loop. -/
theorem indexLoop_rows_deleted :
    ∀ (pend : List (Uuid × Time)) (s : State) (acc : List (Uuid × Time × PyVal)) (cr : Bool)
      (u : Uuid) (t : Time), (u, t) ∈ pend → kvsReadDoc s u = none →
      ∀ r ∈ ((indexLoop s pend polDeleteAndCommit acc cr).snd).rows, r.uuid ≠ u := by
  intro pend
  induction pend with
  | nil => intro s acc cr u t hmem; exact absurd hmem (List.not_mem_nil _)
  | cons hd rest ih =>
    intro s acc cr u t hmem hnone
    obtain ⟨u0, t0⟩ := hd
    rcases h : kvsReadDoc s u0 with _ | v
    · simp only [indexLoop, h, if_neg dac_ne_polInclude, if_pos rfl]
      rcases List.mem_cons.mp hmem with heq | hmem2
      · obtain ⟨rfl, rfl⟩ := Prod.ext_iff.mp heq
        refine indexLoop_rows_absent u rest (dbDeleteRows s u) acc true ?_
        intro r hr
        have hne := (List.mem_filter.mp hr).2
        simpa using hne
      · exact ih (dbDeleteRows s u0) acc true u t hmem2
          (by rw [kvsReadDoc_dbDeleteRows]; exact hnone)
    · simp only [indexLoop, h]
      rcases List.mem_cons.mp hmem with heq | hmem2
      · exfalso
        obtain ⟨rfl, rfl⟩ := Prod.ext_iff.mp heq
        rw [h] at hnone
        exact Option.noConfusion hnone
      · exact ih s (acc ++ [(u0, t0, some v)]) cr u t hmem2 hnone

/-- When a commit is already required, or some pending row has a missing
payload document, the delete-and-commit loop ends with a commit: the durable
snapshot equals the final index view. -/
theorem indexLoop_commits :
    ∀ (pend : List (Uuid × Time)) (s : State) (acc : List (Uuid × Time × PyVal)) (cr : Bool),
      (cr = true ∨ ∃ p ∈ pend, kvsReadDoc s p.1 = none) →
      ((indexLoop s pend polDeleteAndCommit acc cr).snd).committedRows
        = ((indexLoop s pend polDeleteAndCommit acc cr).snd).rows := by
  intro pend
  induction pend with
  | nil =>
    intro s acc cr hcr
    rcases hcr with rfl | ⟨p, hp, _⟩
    · simp [indexLoop, dbCommit]
    · exact absurd hp (List.not_mem_nil _)
  | cons hd rest ih =>
    intro s acc cr hcr
    obtain ⟨u0, t0⟩ := hd
    rcases h : kvsReadDoc s u0 with _ | v
    · simp only [indexLoop, h, if_neg dac_ne_polInclude, if_pos rfl]
      exact ih (dbDeleteRows s u0) acc true (Or.inl rfl)
    · simp only [indexLoop, h]
      refine ih s (acc ++ [(u0, t0, some v)]) cr ?_
      rcases hcr with rfl | ⟨p, hp, hpnone⟩
      · exact Or.inl rfl
      · rcases List.mem_cons.mp hp with heq | hmem2
        · exfalso
          have hu : p.1 = u0 := congrArg Prod.fst heq
          rw [hu, h] at hpnone
          exact Option.noConfusion hpnone
        · exact Or.inr ⟨p, hmem2, hpnone⟩

/-- C1: the claim says every completing `store_event` call returns the
generated event identifier.  The Python function body has no return
statement, so a completing call evaluates to Python `None` — here a concrete
completing call whose result carries no identifier, contradicting the
function docstring (`Returns: event_uuid (str)`). -/
theorem c1_store_event_returns_no_identifier :
    (store_event (mkState [] (some ⟨31622400, []⟩) noFaults) 0 5 (some 42) true).fst
      = Except.ok none := by rfl

/-- C7: with the `include` integrity-failure policy, `index_events` returns
exactly one entry per selected index row — rows with a missing payload
document appear with payload `none` — and the state (index rows, committed
snapshot, payload store, trace) is returned completely unchanged. -/
theorem c7_include_returns_every_row_without_mutation (s : State) (qt : Int) (lim : Nat)
    (bt at_ : Option Time) (o : SqlOrder) :
    index_events s qt lim bt at_ o polInclude =
      (Except.ok ((selectRows s.rows qt bt at_ o lim).map fun p => (p.1, p.2, kvsReadDoc s p.1)),
        s) := by
  unfold index_events
  rw [indexLoop_include_eq]
  simp

/-- C9: signals arriving during a `delay_signals` critical section are
captured by flag-setting handlers rather than delivered, and after the
section at most one signal is redelivered: SIGTERM when one arrived, else
SIGINT when one arrived, else nothing. -/
theorem c9_delay_signals_redelivers_most_urgent (sigs : List Sig) :
    delay_signals_redelivered sigs =
      if Sig.sigterm ∈ sigs then some Sig.sigterm
      else if Sig.sigint ∈ sigs then some Sig.sigint
      else none := by
  unfold delay_signals_redelivered captureAll delayCallback
  rw [foldl_captureSig_sigterm, foldl_captureSig_sigint]
  by_cases h1 : Sig.sigterm ∈ sigs <;> by_cases h2 : Sig.sigint ∈ sigs <;> simp [h1, h2]

/-- C6 counterexample: the claim says every `index_events` call with a policy
other than `include` and `delete_and_commit` raises; here a concrete call
with the bad policy value returns normally (the selection is empty, so the
policy is never inspected). -/
theorem c6_counterexample_bad_policy_returns :
    (index_events (mkState [] none noFaults) 0 5 none none SqlOrder.asc polBogus).fst
      = Except.ok [] := by rfl

/-- C4 counterexample: the claim says a claim-conflicted event is skipped
with no side effects on either store.  Here the conflicted iteration invokes
neither handler nor rollback (the trace shows only the claim attempt), yet
the payload store is mutated: the orphaned payload document of the event is
force-deleted by `delete_event`. -/
theorem c4_counterexample_skip_mutates_payload_store :
    (consumeLoop (mkState [] (some ⟨9, [(0, some 42)]⟩) noFaults) 0 [(0, 5, some 42)]
        hNop hNop).fst = Except.ok ()
    ∧ (consumeLoop (mkState [] (some ⟨9, [(0, some 42)]⟩) noFaults) 0 [(0, 5, some 42)]
        hNop hNop).snd.trace
      = [Action.deleteRows 0, Action.commitTx, Action.forceDeleteDoc 0]
    ∧ (mkState [] (some ⟨9, [(0, some 42)]⟩) noFaults).kvs = some ⟨9, [(0, some 42)]⟩
    ∧ (consumeLoop (mkState [] (some ⟨9, [(0, some 42)]⟩) noFaults) 0 [(0, 5, some 42)]
        hNop hNop).snd.kvs = some ⟨9, []⟩ :=
  ⟨by rfl, by rfl, by rfl, by rfl⟩

/-- With an unrecognized policy, the payload-join loop raises the
bad-technique exception exactly when some pending row has a missing payload
document; otherwise the policy value is never inspected. -/
theorem indexLoop_bad_iff (pol : String) (h1 : pol ≠ polInclude)
    (h2 : pol ≠ polDeleteAndCommit) :
    ∀ (pend : List (Uuid × Time)) (s : State) (acc : List (Uuid × Time × PyVal)) (cr : Bool),
      (indexLoop s pend pol acc cr).fst = Except.error (PyErr.badIntegrity pol)
        ↔ ∃ p ∈ pend, kvsReadDoc s p.1 = none := by
  intro pend
  induction pend with
  | nil =>
    intro s acc cr
    constructor
    · intro hh
      cases cr <;> simp [indexLoop] at hh
    · rintro ⟨p, hp, -⟩
      exact absurd hp (List.not_mem_nil _)
  | cons hd rest ih =>
    intro s acc cr
    obtain ⟨u, t⟩ := hd
    rcases h : kvsReadDoc s u with _ | v
    · simp only [indexLoop, h, if_neg h1, if_neg h2]
      constructor
      · intro _
        exact ⟨(u, t), List.mem_cons_self _ _, h⟩
      · intro _
        trivial
    · simp only [indexLoop, h]
      rw [ih s (acc ++ [(u, t, some v)]) cr]
      constructor
      · rintro ⟨p, hp, hnone⟩
        exact ⟨p, List.mem_cons_of_mem _ hp, hnone⟩
      · rintro ⟨p, hp, hnone⟩
        rcases List.mem_cons.mp hp with heq | hmem
        · exfalso
          have hp1 : p.1 = u := by rw [heq]
          rw [hp1, h] at hnone
          exact Option.noConfusion hnone
        · exact ⟨p, hmem, hnone⟩

/-- Whatever the policy, each result entry of the payload-join loop beyond
the accumulator projects to a pending `(uuid, event_at)` row, in selection
order. -/
theorem indexLoop_proj_sublist (pol : String) :
    ∀ (pend : List (Uuid × Time)) (s : State) (acc : List (Uuid × Time × PyVal)) (cr : Bool)
      (res : List (Uuid × Time × PyVal)) (s' : State),
      indexLoop s pend pol acc cr = (Except.ok res, s') →
      ∃ q, res = acc ++ q ∧ (q.map fun e => (e.1, e.2.1)).Sublist pend := by
  intro pend
  induction pend with
  | nil =>
    intro s acc cr res s' heq
    simp only [indexLoop, Prod.mk.injEq, Except.ok.injEq] at heq
    obtain ⟨rfl, -⟩ := heq
    exact ⟨[], by simp, List.nil_sublist _⟩
  | cons hd rest ih =>
    intro s acc cr res s' heq
    obtain ⟨u, t⟩ := hd
    rcases h : kvsReadDoc s u with _ | v
    · by_cases hp1 : pol = polInclude
      · simp only [indexLoop, h, if_pos hp1] at heq
        obtain ⟨q, rfl, hsub⟩ := ih s (acc ++ [(u, t, none)]) cr res s' heq
        refine ⟨(u, t, none) :: q, by simp, ?_⟩
        exact List.Sublist.cons₂ _ hsub
      · by_cases hp2 : pol = polDeleteAndCommit
        · simp only [indexLoop, h, if_neg hp1, if_pos hp2] at heq
          obtain ⟨q, rfl, hsub⟩ := ih (dbDeleteRows s u) acc true res s' heq
          exact ⟨q, rfl, hsub.cons _⟩
        · simp only [indexLoop, h, if_neg hp1, if_neg hp2] at heq
          exact absurd (congrArg Prod.fst heq) (by simp)
    · simp only [indexLoop, h] at heq
      obtain ⟨q, rfl, hsub⟩ := ih s (acc ++ [(u, t, some v)]) cr res s' heq
      refine ⟨(u, t, some v) :: q, by simp, ?_⟩
      exact List.Sublist.cons₂ _ hsub

/-- The select never returns more rows than its limit. -/
theorem selectRows_length_le (rows : List IndexRow) (qt : Int) (bt at_ : Option Time)
    (o : SqlOrder) (lim : Nat) : (selectRows rows qt bt at_ o lim).length ≤ lim := by
  unfold selectRows
  rw [List.length_map, List.length_take]
  omega

/-- The row comparator transfers to the selected time ordering. -/
theorem rowRel_to_timeRel (o : SqlOrder) (a b : IndexRow) (h : rowRel o a b) :
    timeRel o a.eventAt b.eventAt := by
  cases o <;>
    (dsimp only [rowRel, rowLe] at h; dsimp only [timeRel]; exact of_decide_eq_true h)

/-- The event times of the selected rows are ordered per the requested
order. -/
theorem selectRows_sorted (rows : List IndexRow) (qt : Int) (bt at_ : Option Time)
    (o : SqlOrder) (lim : Nat) :
    List.Pairwise (timeRel o) ((selectRows rows qt bt at_ o lim).map Prod.snd) := by
  unfold selectRows
  rw [List.map_map]
  have hsorted : List.Pairwise (rowRel o)
      (List.insertionSort (rowRel o) (rows.filter (rowMatches qt bt at_))) :=
    List.sorted_insertionSort (rowRel o) _
  have htake : List.Pairwise (rowRel o)
      ((List.insertionSort (rowRel o) (rows.filter (rowMatches qt bt at_))).take lim) :=
    List.Pairwise.sublist (List.take_sublist _ _) hsorted
  refine List.Pairwise.map _ ?_ htake
  intro a b hab
  exact rowRel_to_timeRel o a b hab

/-- Every selected `(uuid, event_at)` pair is the projection of an index
row that satisfies the `WHERE` clause. -/
theorem selectRows_mem (rows : List IndexRow) (qt : Int) (bt at_ : Option Time)
    (o : SqlOrder) (lim : Nat) (u : Uuid) (t : Time)
    (h : (u, t) ∈ selectRows rows qt bt at_ o lim) :
    ∃ r ∈ rows, r.uuid = u ∧ r.eventAt = t ∧ rowMatches qt bt at_ r = true := by
  unfold selectRows at h
  obtain ⟨r, hr, hrt⟩ := List.mem_map.mp h
  obtain ⟨hu, ht⟩ := Prod.ext_iff.mp hrt
  have h2 : r ∈ List.insertionSort (rowRel o) (rows.filter (rowMatches qt bt at_)) :=
    List.Sublist.mem hr (List.take_sublist _ _)
  have h3 : r ∈ rows.filter (rowMatches qt bt at_) :=
    (List.perm_insertionSort (rowRel o) _).mem_iff.mp h2
  obtain ⟨h4, h5⟩ := List.mem_filter.mp h3
  exact ⟨r, h4, hu, ht, h5⟩

/-- A matching row respects a given `after_time` bound strictly. -/
theorem rowMatches_after (qt : Int) (bt : Option Time) (x : Time) (r : IndexRow)
    (h : rowMatches qt bt (some x) r = true) : x < r.eventAt := by
  unfold rowMatches at h
  simp only [Bool.and_eq_true] at h
  exact of_decide_eq_true h.2

/-- A matching row respects a given `before_time` bound strictly. -/
theorem rowMatches_before (qt : Int) (y : Time) (at_ : Option Time) (r : IndexRow)
    (h : rowMatches qt (some y) at_ r = true) : r.eventAt < y := by
  unfold rowMatches at h
  simp only [Bool.and_eq_true] at h
  exact of_decide_eq_true h.1.2

/-- C3: with the `delete_and_commit` policy, `index_events` returns
normally, no returned entry has an absent payload, and for every selected
row whose payload document is missing: the entry is omitted from the
results, every index row with that uuid is deleted, and the deletion is
committed before the function returns. -/
theorem c3_delete_and_commit_purges_integrity_failures (s : State) (qt : Int) (lim : Nat)
    (bt at_ : Option Time) (o : SqlOrder) :
    ∃ res,
      (index_events s qt lim bt at_ o polDeleteAndCommit).fst = Except.ok res ∧
      (∀ e ∈ res, e.2.2 ≠ none) ∧
      ∀ u t, (u, t) ∈ selectRows s.rows qt bt at_ o lim → kvsReadDoc s u = none →
        (∀ t' p, (u, t', p) ∉ res) ∧
        (∀ r ∈ ((index_events s qt lim bt at_ o polDeleteAndCommit).snd).rows, r.uuid ≠ u) ∧
        (∀ r ∈ ((index_events s qt lim bt at_ o polDeleteAndCommit).snd).committedRows,
          r.uuid ≠ u) := by
  unfold index_events
  obtain ⟨res, hfst, hmem⟩ := indexLoop_dac_entries (selectRows s.rows qt bt at_ o lim) s [] false
  refine ⟨res, hfst, ?_, ?_⟩
  · intro e he
    rcases hmem e he with hacc | ⟨-, -, hne⟩
    · exact absurd hacc (List.not_mem_nil _)
    · exact hne
  · intro u t hsel hnone
    refine ⟨?_, ?_, ?_⟩
    · intro t' p hin
      rcases hmem _ hin with hacc | ⟨-, hread, hne⟩
      · exact absurd hacc (List.not_mem_nil _)
      · exact hne (hread.trans hnone)
    · exact indexLoop_rows_deleted _ s [] false u t hsel hnone
    · have hc := indexLoop_commits (selectRows s.rows qt bt at_ o lim) s [] false
        (Or.inr ⟨(u, t), hsel, hnone⟩)
      intro r hr
      rw [hc] at hr
      exact indexLoop_rows_deleted _ s [] false u t hsel hnone r hr

/-- C3 witness: on a concrete state with one integrity failure (uuid 7) the
delete-and-commit call returns only the intact event and the committed
snapshot no longer holds uuid 7. -/
theorem c3_witness_concrete_purge :
    (index_events stTwoRowsOneDoc 0 5 none none SqlOrder.asc polDeleteAndCommit).fst
      = Except.ok [(8, 3, some 11)]
    ∧ ∀ r ∈ ((index_events stTwoRowsOneDoc 0 5 none none
        SqlOrder.asc polDeleteAndCommit).snd).committedRows, r.uuid ≠ 7 := by
  obtain ⟨res, hfst, hnone, hdel⟩ :=
    c3_delete_and_commit_purges_integrity_failures stTwoRowsOneDoc 0 5 none none SqlOrder.asc
  have hsel : (7, 5) ∈ selectRows stTwoRowsOneDoc.rows 0 none none SqlOrder.asc 5 := by
    have hs : selectRows stTwoRowsOneDoc.rows 0 none none SqlOrder.asc 5 = [(8, 3), (7, 5)] := by
      rfl
    rw [hs]
    simp
  obtain ⟨-, -, hcomm⟩ := hdel 7 5 hsel (by rfl)
  exact ⟨by rfl, hcomm⟩

/-- C6 amended: an `index_events` call with a policy value other than
`include` and `delete_and_commit` raises the bad-technique exception if and
only if some selected row has a missing payload document; when every
selected row still has its payload the policy value is never inspected and
the call returns normally. -/
theorem c6_amended_bad_policy_raises_iff_integrity_failure (s : State) (qt : Int) (lim : Nat)
    (bt at_ : Option Time) (o : SqlOrder) (pol : String)
    (h1 : pol ≠ polInclude) (h2 : pol ≠ polDeleteAndCommit) :
    (index_events s qt lim bt at_ o pol).fst = Except.error (PyErr.badIntegrity pol)
      ↔ ∃ p ∈ selectRows s.rows qt bt at_ o lim, kvsReadDoc s p.1 = none := by
  unfold index_events
  exact indexLoop_bad_iff pol h1 h2 _ s [] false

/-- C6 witness: a concrete bad-policy call over a selection containing an
integrity failure raises the bad-technique exception. -/
theorem c6_witness_bad_policy_raises :
    (index_events stOneRowNoDoc 0 5 none none SqlOrder.asc polBogus).fst
      = Except.error (PyErr.badIntegrity polBogus) := by
  refine (c6_amended_bad_policy_raises_iff_integrity_failure stOneRowNoDoc 0 5 none none
    SqlOrder.asc polBogus (by decide) (by decide)).mpr ?_
  refine ⟨(7, 5), ?_, by rfl⟩
  have hs : selectRows stOneRowNoDoc.rows 0 none none SqlOrder.asc 5 = [(7, 5)] := by rfl
  rw [hs]
  simp

/-- C5: whenever `index_events` returns a result list, it has at most
`limit` entries, its event times follow the requested order, no entry
violates a given `after_time` lower bound, and none violates a given
`before_time` upper bound. -/
theorem c5_limit_order_and_bounds (s : State) (qt : Int) (lim : Nat)
    (bt at_ : Option Time) (o : SqlOrder) (pol : String)
    (res : List (Uuid × Time × PyVal)) (s' : State)
    (h : index_events s qt lim bt at_ o pol = (Except.ok res, s')) :
    res.length ≤ lim ∧
    List.Pairwise (timeRel o) (res.map fun e => e.2.1) ∧
    (∀ e ∈ res, ∀ x, at_ = some x → x < e.2.1) ∧
    (∀ e ∈ res, ∀ y, bt = some y → e.2.1 < y) := by
  unfold index_events at h
  obtain ⟨q, hq, hsub⟩ := indexLoop_proj_sublist pol _ s [] false res s' h
  rw [List.nil_append] at hq
  subst hq
  have hmemsel : ∀ e ∈ res, (e.1, e.2.1) ∈ selectRows s.rows qt bt at_ o lim := by
    intro e he
    exact List.Sublist.mem (List.mem_map_of_mem (fun e => (e.1, e.2.1)) he) hsub
  refine ⟨?_, ?_, ?_, ?_⟩
  · have hlen : (res.map fun e => (e.1, e.2.1)).length
        ≤ (selectRows s.rows qt bt at_ o lim).length := hsub.length_le
    rw [List.length_map] at hlen
    exact le_trans hlen (selectRows_length_le s.rows qt bt at_ o lim)
  · have hsorted := List.Pairwise.sublist (hsub.map Prod.snd)
      (selectRows_sorted s.rows qt bt at_ o lim)
    simpa [List.map_map, Function.comp] using hsorted
  · intro e he x hx
    subst hx
    obtain ⟨r, -, -, ht, hmatch⟩ := selectRows_mem s.rows qt bt _ o lim e.1 e.2.1
      (hmemsel e he)
    rw [← ht]
    exact rowMatches_after qt bt x r hmatch
  · intro e he y hy
    subst hy
    obtain ⟨r, -, -, ht, hmatch⟩ := selectRows_mem s.rows qt _ at_ o lim e.1 e.2.1
      (hmemsel e he)
    rw [← ht]
    exact rowMatches_before qt y at_ r hmatch

/-- C5 witness: on a concrete call both the limit and the ordering
conclusions are obtained from the theorem at a computed result list. -/
theorem c5_witness_concrete_call :
    index_events stTwoRowsOneDoc 0 5 (some 6) (some 1) SqlOrder.asc polInclude
      = (Except.ok [(8, 3, some 11), (7, 5, none)], stTwoRowsOneDoc)
    ∧ ([(8, 3, some 11), (7, 5, (none : PyVal))] : List (Uuid × Time × PyVal)).length ≤ 5
    ∧ List.Pairwise (timeRel SqlOrder.asc)
        (([(8, 3, some 11), (7, 5, (none : PyVal))] : List (Uuid × Time × PyVal)).map
          fun e => e.2.1) := by
  have h : index_events stTwoRowsOneDoc 0 5 (some 6) (some 1) SqlOrder.asc polInclude
      = (Except.ok [(8, 3, some 11), (7, 5, none)], stTwoRowsOneDoc) := by rfl
  obtain ⟨hlen, hsort, -, -⟩ := c5_limit_order_and_bounds stTwoRowsOneDoc 0 5 (some 6) (some 1)
    SqlOrder.asc polInclude [(8, 3, some 11), (7, 5, none)] stTwoRowsOneDoc h
  exact ⟨h, hlen, hsort⟩

/-- Deleting by a uuid that no row carries leaves the row list unchanged. -/
theorem filter_ne_of_any_eq_false (rows : List IndexRow) (u : Uuid)
    (h : rows.any (fun r => r.uuid == u) = false) :
    rows.filter (fun r => r.uuid != u) = rows := by
  rw [List.filter_eq_self]
  intro r hr
  have h2 := (List.any_eq_false.mp h) r hr
  simpa using h2

/-- C4 amended: on a claim conflict (the claim delete reports no row
existed) the consumer skips the event — neither handler nor rollback is
invoked and the index rows are unchanged — but the skipped iteration is not
free of side effects: `delete_event` commits and unconditionally
force-deletes the payload document of the event, removing it when an
orphaned copy still exists. -/
theorem c4_amended_claim_conflict_skips_but_force_deletes
    (s : State) (qt : Int) (u : Uuid) (t : Time) (ev : PyVal)
    (rest : List (Uuid × Time × PyVal)) (handler rollback : EventHandler)
    (h : s.rows.any (fun r => r.uuid == u) = false) :
    consumeLoop s qt ((u, t, ev) :: rest) handler rollback
      = consumeLoop (kvsForceDeleteDoc (dbCommit (dbDeleteRows s u)) u) qt rest
          handler rollback
    ∧ (kvsForceDeleteDoc (dbCommit (dbDeleteRows s u)) u).rows = s.rows
    ∧ (kvsForceDeleteDoc (dbCommit (dbDeleteRows s u)) u).trace
        = s.trace ++ [Action.deleteRows u, Action.commitTx, Action.forceDeleteDoc u]
    ∧ ∀ c, s.kvs = some c →
        (kvsForceDeleteDoc (dbCommit (dbDeleteRows s u)) u).kvs
          = some ⟨c.ttl, c.docs.filter (fun kv => kv.1 != u)⟩ := by
  refine ⟨?_, ?_, ?_, ?_⟩
  · simp only [consumeLoop, delete_event, h, if_pos trivial]
  · rw [kvsForceDeleteDoc_rows]
    simp [dbCommit, dbDeleteRows, filter_ne_of_any_eq_false s.rows u h]
  · rw [kvsForceDeleteDoc_trace]
    simp [dbCommit, dbDeleteRows]
  · intro c hc
    exact kvsForceDeleteDoc_kvs_some _ u c (by simp [dbCommit, dbDeleteRows, hc])

/-- C4 amended witness: a concrete conflicted iteration reduces to the skip
with unchanged index rows. -/
theorem c4_amended_witness_concrete_skip :
    consumeLoop stOneRowOneDoc 0 [(5, 4, some 1)] hNop hNop
      = consumeLoop (kvsForceDeleteDoc (dbCommit (dbDeleteRows stOneRowOneDoc 5)) 5) 0 []
          hNop hNop
    ∧ (kvsForceDeleteDoc (dbCommit (dbDeleteRows stOneRowOneDoc 5)) 5).rows
        = stOneRowOneDoc.rows := by
  obtain ⟨h1, h2, -, -⟩ := c4_amended_claim_conflict_skips_but_force_deletes
    stOneRowOneDoc 0 5 4 (some 1) [] hNop hNop (by rfl)
  exact ⟨h1, h2⟩

/-- C2: when the handler raises on a successfully claimed event, the
consumer logs the failure, invokes the rollback with the context dict
exactly as the handler left it, re-stores the event with
`store_event(queue_type, ev_at, ev, commit=True)` under the freshly
generated identifier (distinct from the claimed one), and re-raises the
original exception — the trace of the call ends there, so no further
selected event is processed. -/
theorem c2_handler_failure_rolls_back_requeues_and_reraises
    (s : State) (qt : Int) (u : Uuid) (t : Time) (ev : PyVal)
    (rest : List (Uuid × Time × PyVal)) (handler rollback : EventHandler)
    (e : Nat) (ctx ctx2 : Ctx) (c : Coll)
    (hclaim : s.rows.any (fun r => r.uuid == u) = true)
    (hhandler : handler u t ev [] = (Except.error e, ctx))
    (hrollback : rollback u t ev ctx = (Except.ok (), ctx2))
    (hkvs : s.kvs = some c)
    (hfault : s.faults s.kvsCalls = none)
    (hfresh : s.nextUuid ≠ u) :
    (consumeLoop s qt ((u, t, ev) :: rest) handler rollback).fst
        = Except.error (PyErr.exc e)
    ∧ (consumeLoop s qt ((u, t, ev) :: rest) handler rollback).snd.trace
        = s.trace ++ [Action.deleteRows u, Action.commitTx, Action.forceDeleteDoc u,
            Action.handlerCall u [], Action.logExc u, Action.rollbackCall u ctx,
            Action.writeDoc s.nextUuid true, Action.insertRow s.nextUuid, Action.commitTx]
    ∧ (⟨s.nextRowId, s.nextUuid, qt, t⟩ : IndexRow)
        ∈ (consumeLoop s qt ((u, t, ev) :: rest) handler rollback).snd.committedRows
    ∧ kvsReadDoc (consumeLoop s qt ((u, t, ev) :: rest) handler rollback).snd s.nextUuid = ev
    ∧ s.nextUuid ≠ u := by
  refine ⟨?_, ?_, ?_, ?_, hfresh⟩ <;>
    simp only [consumeLoop, delete_event, hclaim, if_pos trivial, dbDeleteRows, dbCommit,
      kvsForceDeleteDoc, hkvs, hhandler, hrollback, store_event, kvsWriteDoc, hfault,
      storeEventTail, dbInsertRow, kvsReadDoc, lookupDoc_upsert, List.append_assoc,
      List.cons_append, List.nil_append, List.singleton_append, List.mem_append,
      List.mem_singleton]
  exact Or.inr trivial

/-- C2 witness: a concrete claimed event whose handler raises code 7 after
writing to the context; the loop errors with the original exception, the
rollback sees the mutated context, and the requeued event row is committed
under the fresh uuid 100. -/
theorem c2_witness_concrete_failure :
    (consumeLoop stOneRowOneDoc 0 [(0, 5, some 42)] hFail hNop).fst
        = Except.error (PyErr.exc 7)
    ∧ (consumeLoop stOneRowOneDoc 0 [(0, 5, some 42)] hFail hNop).snd.trace
        = [Action.deleteRows 0, Action.commitTx, Action.forceDeleteDoc 0,
            Action.handlerCall 0 [], Action.logExc 0, Action.rollbackCall 0 [(1, 2)],
            Action.writeDoc 100 true, Action.insertRow 100, Action.commitTx]
    ∧ (⟨10, 100, 0, 5⟩ : IndexRow)
        ∈ (consumeLoop stOneRowOneDoc 0 [(0, 5, some 42)] hFail hNop).snd.committedRows
    ∧ (100 : Nat) ≠ 0 := by
  obtain ⟨h1, h2, h3, -, h5⟩ := c2_handler_failure_rolls_back_requeues_and_reraises
    stOneRowOneDoc 0 0 5 (some 42) [] hFail hNop 7 [(1, 2)] [(1, 2)] ⟨9, [(0, some 42)]⟩
    (by rfl) (by rfl) (by rfl) (by rfl) (by rfl) (by decide)
  exact ⟨h1, h2, h3, h5⟩

/-- C8: when the initial payload write fails because the collection does
not exist (no network fault, collection absent), the collection is
provisioned with TTL 31622400 seconds and the write is retried exactly once
(the trace shows precisely two write attempts with the provisioning between
them) and the call then completes; if the single retry fails its exception
propagates (with the collection left provisioned); and an initial failure
of any non-HTTP kind propagates immediately, without provisioning or
retrying. -/
theorem c8_provisioning_and_single_retry (s : State) (qt : Int) (t : Time) (ev : PyVal)
    (commit : Bool) :
    (s.kvs = none → s.faults s.kvsCalls = none → s.faults (s.kvsCalls + 1) = none →
      (store_event s qt t ev commit).fst = Except.ok none
      ∧ ((store_event s qt t ev commit).snd).kvs = some ⟨31622400, upsert s.nextUuid ev []⟩
      ∧ ((store_event s qt t ev commit).snd).trace
          = s.trace ++ [Action.writeDoc s.nextUuid false, Action.createColl 31622400,
              Action.writeDoc s.nextUuid true, Action.insertRow s.nextUuid]
            ++ (if commit then [Action.commitTx] else []))
    ∧ (∀ e2, s.kvs = none → s.faults s.kvsCalls = none → s.faults (s.kvsCalls + 1) = some e2 →
        (store_event s qt t ev commit).fst = Except.error e2
        ∧ ((store_event s qt t ev commit).snd).kvs = some ⟨31622400, []⟩)
    ∧ (∀ e1, e1 ≠ PyErr.httpError → s.faults s.kvsCalls = some e1 →
        (store_event s qt t ev commit).fst = Except.error e1
        ∧ ((store_event s qt t ev commit).snd).kvs = s.kvs
        ∧ ((store_event s qt t ev commit).snd).trace
            = s.trace ++ [Action.writeDoc s.nextUuid false]) := by
  refine ⟨?_, ?_, ?_⟩
  · intro hk h0 h1
    refine ⟨?_, ?_, ?_⟩ <;>
      cases commit <;>
        simp only [store_event, kvsWriteDoc, h0, hk, kvsCreateIfNotExists, h1,
          storeEventTail, dbInsertRow, dbCommit, if_pos trivial, if_neg, List.append_assoc,
          List.cons_append, List.nil_append, List.singleton_append, Bool.false_eq_true,
          not_false_eq_true, List.append_nil]
  · intro e2 hk h0 h1
    refine ⟨?_, ?_⟩ <;>
      simp only [store_event, kvsWriteDoc, h0, hk, kvsCreateIfNotExists, h1]
  · intro e1 hne h0
    refine ⟨?_, ?_, ?_⟩ <;>
      cases e1 <;>
        first
          | exact absurd rfl hne
          | simp only [store_event, kvsWriteDoc, h0]

/-- C8 witness: concrete runs of the three scenarios — missing collection
with clean retry (succeeds with the long-TTL collection provisioned),
missing collection with a faulted retry (error propagates), and a non-HTTP
initial fault (error propagates with the payload store untouched). -/
theorem c8_witness_concrete_scenarios :
    (store_event stNoColl 0 5 (some 42) true).fst = Except.ok none
    ∧ ((store_event stNoColl 0 5 (some 42) true).snd).kvs
        = some ⟨31622400, upsert 100 (some 42) []⟩
    ∧ (store_event stNoCollRetryFault 0 5 (some 42) true).fst
        = Except.error PyErr.otherError
    ∧ (store_event stFaultFirst 0 5 (some 42) true).fst = Except.error PyErr.otherError
    ∧ ((store_event stFaultFirst 0 5 (some 42) true).snd).kvs = stFaultFirst.kvs := by
  obtain ⟨w1, -, -⟩ := c8_provisioning_and_single_retry stNoColl 0 5 (some 42) true
  obtain ⟨f1, f2, -⟩ := w1 (by rfl) (by rfl) (by rfl)
  obtain ⟨-, w2, -⟩ := c8_provisioning_and_single_retry stNoCollRetryFault 0 5 (some 42) true
  obtain ⟨g1, -⟩ := w2 PyErr.otherError (by rfl) (by rfl) (by rfl)
  obtain ⟨-, -, w3⟩ := c8_provisioning_and_single_retry stFaultFirst 0 5 (some 42) true
  obtain ⟨k1, k2, -⟩ := w3 PyErr.otherError (by decide) (by rfl)
  exact ⟨f1, f2, g1, k1, k2⟩

/-- C10: whenever `store_event` raises (any failing payload-write path,
including a failed retry), the relational index is untouched: the row view
and the committed snapshot are exactly the caller's, and the actions of the
call contain no row insert and no commit. -/
theorem c10_failed_store_leaves_index_unchanged (s : State) (qt : Int) (t : Time) (ev : PyVal)
    (commit : Bool) (e : PyErr) (s' : State)
    (h : store_event s qt t ev commit = (Except.error e, s')) :
    s'.rows = s.rows ∧ s'.committedRows = s.committedRows ∧
    ∀ a ∈ s'.trace.drop s.trace.length,
      (∀ v, a ≠ Action.insertRow v) ∧ a ≠ Action.commitTx := by
  rcases h0 : s.faults s.kvsCalls with _ | e1
  · rcases hk : s.kvs with _ | c
    · rcases h1 : s.faults (s.kvsCalls + 1) with _ | e2
      · simp only [store_event, kvsWriteDoc, h0, hk, kvsCreateIfNotExists, h1,
          storeEventTail, dbInsertRow, dbCommit] at h
        cases commit <;> simp at h
      · simp only [store_event, kvsWriteDoc, h0, hk, kvsCreateIfNotExists, h1,
          Prod.mk.injEq] at h
        obtain ⟨-, rfl⟩ := h
        refine ⟨by rfl, by rfl, ?_⟩
        intro a ha
        dsimp only at ha
        simp only [List.append_assoc, List.drop_left] at ha
        simp only [List.mem_append, List.mem_singleton] at ha
        rcases ha with rfl | rfl | rfl <;> simp
    · simp only [store_event, kvsWriteDoc, h0, hk, storeEventTail, dbInsertRow,
        dbCommit] at h
      cases commit <;> simp at h
  · cases e1
    case httpError =>
      rcases hk : s.kvs with _ | c
      · rcases h1 : s.faults (s.kvsCalls + 1) with _ | e2
        · simp only [store_event, kvsWriteDoc, h0, hk, kvsCreateIfNotExists, h1,
            storeEventTail, dbInsertRow, dbCommit] at h
          cases commit <;> simp at h
        · simp only [store_event, kvsWriteDoc, h0, hk, kvsCreateIfNotExists, h1,
            Prod.mk.injEq] at h
          obtain ⟨-, rfl⟩ := h
          refine ⟨by rfl, by rfl, ?_⟩
          intro a ha
          dsimp only at ha
          simp only [List.append_assoc, List.drop_left] at ha
          simp only [List.mem_append, List.mem_singleton] at ha
          rcases ha with rfl | rfl | rfl <;> simp
      · rcases h1 : s.faults (s.kvsCalls + 1) with _ | e2
        · simp only [store_event, kvsWriteDoc, h0, hk, kvsCreateIfNotExists, h1,
            storeEventTail, dbInsertRow, dbCommit] at h
          cases commit <;> simp at h
        · simp only [store_event, kvsWriteDoc, h0, hk, kvsCreateIfNotExists, h1,
            Prod.mk.injEq] at h
          obtain ⟨-, rfl⟩ := h
          refine ⟨by rfl, by rfl, ?_⟩
          intro a ha
          dsimp only at ha
          simp only [List.append_assoc, List.drop_left] at ha
          simp only [List.mem_append, List.mem_singleton] at ha
          rcases ha with rfl | rfl <;> simp
    all_goals
      simp only [store_event, kvsWriteDoc, h0, Prod.mk.injEq] at h
      obtain ⟨-, rfl⟩ := h
      refine ⟨by rfl, by rfl, ?_⟩
      intro a ha
      dsimp only at ha
      simp only [List.drop_left] at ha
      simp only [List.mem_singleton] at ha
      subst ha
      simp

/-- C10 witness: a concrete failing `store_event` call (non-HTTP fault on
the first write) leaves both the row view and the committed snapshot of the
index unchanged. -/
theorem c10_witness_concrete_failed_store :
    (store_event stFaultFirst 0 5 (some 42) true).snd.rows = stFaultFirst.rows
    ∧ (store_event stFaultFirst 0 5 (some 42) true).snd.committedRows
        = stFaultFirst.committedRows := by
  obtain ⟨h1, h2, -⟩ := c10_failed_store_leaves_index_unchanged stFaultFirst 0 5 (some 42)
    true PyErr.otherError ((store_event stFaultFirst 0 5 (some 42) true).snd) (by rfl)
  exact ⟨h1, h2⟩

end LBShared
